import Mathlib

/-!
Verification of the forensic-ensemble core of APEX-VERIFY-AI.

The definitions below are a shallow embedding of
src/backend/app/services/manipulation_detector.py and
src/backend/app/services/ai_image_detector.py.  Pixel buffers are
rectangular lists of 8-bit values (modelled as Nat), exact arithmetic is
carried out in the rationals, and operations that are mathematically real
valued (np.std, np.fft magnitudes) live in the reals.
-/

namespace ApexVerify

/-! ### Pixel buffers and elementary statistics -/

/-- A grayscale image: a list of rows of 8-bit pixel values. -/
abbrev Gray : Type := List (List Nat)

/-- Number of rows of an image (numpy shape component 0). -/
def height (g : Gray) : Nat := g.length

/-- Number of columns of an image (numpy shape component 1, taken from row 0). -/
def width (g : Gray) : Nat := (g.headD []).length

/-- Pixel read, out-of-range reads default to 0. -/
def px (g : Gray) (i j : Nat) : Nat := ((g.get? i).bind (fun r => r.get? j)).getD 0

/-- Absolute difference of two naturals (cv2.absdiff on uint8 values). -/
def natAbsDiff (a b : Nat) : Nat := max a b - min a b

/-- Mean of a list of rationals (np.mean); 0 on the empty list. -/
def meanQ (xs : List ℚ) : ℚ := if xs = [] then 0 else xs.sum / xs.length

/-- Population variance of a list of rationals (np.var, ddof = 0),
computed as E[x^2] - (E[x])^2; 0 on the empty list. -/
def varQ (xs : List ℚ) : ℚ :=
  if xs = [] then 0
  else (xs.map (fun x => x ^ 2)).sum / xs.length - (xs.sum / xs.length) ^ 2

end ApexVerify

namespace ManipDetector

open ApexVerify

/-! ### ManipulationDetector.analyze score combination (lines 50-70)

confidence = ela_score * 0.4 + freq_score * 0.3 + noise_score * 0.3
is_manipulated = confidence > 0.70
final_confidence = confidence if is_manipulated else 1 - confidence -/

/-- Weighted suspicion score of ManipulationDetector.analyze:
ela * 0.4 + freq * 0.3 + noise * 0.3. -/
def manipConfidence (e f n : ℚ) : ℚ := e * (2/5) + f * (3/10) + n * (3/10)

/-- Decision of ManipulationDetector.analyze: confidence > 0.70. -/
def manipIsManipulated (e f n : ℚ) : Bool := decide (manipConfidence e f n > 7/10)

/-- Manipulation type labels emitted by ManipulationDetector.analyze. -/
inductive ManipType
  | ai_generated
  | splice
  | clone
  deriving DecidableEq, Repr

/-- Manipulation-type classification of ManipulationDetector.analyze:
only set when manipulated; ela > 0.85 gives ai_generated, else
freq > 0.75 gives splice, else clone. -/
def manipulationType (e f n : ℚ) : Option ManipType :=
  if manipIsManipulated e f n then
    if e > 17/20 then some ManipType.ai_generated
    else if f > 3/4 then some ManipType.splice
    else some ManipType.clone
  else none

/-- Oriented confidence returned by ManipulationDetector.analyze:
the raw suspicion score when manipulated, its complement otherwise. -/
def finalConfidence (e f n : ℚ) : ℚ :=
  if manipIsManipulated e f n then manipConfidence e f n else 1 - manipConfidence e f n

/-! ### ManipulationDetector._noise_analysis (lines 177-213)

cv2.GaussianBlur(gray, (5, 5), 0) uses the fixed 5-tap kernel
[1, 4, 6, 4, 1]/16 in each axis (OpenCV small-kernel table for sigma 0),
BORDER_REFLECT_101 borders, and rounds the fixed-point accumulator to the
nearest uint8. -/

/-- BORDER_REFLECT_101 index reflection: index -i maps to i and index
n - 1 + i maps to n - 1 - i (the border pixel itself is not repeated). -/
def reflect101 (n : Nat) (i : Int) : Nat :=
  if i < 0 then (-i).toNat
  else if (n : Int) ≤ i then 2 * (n - 1) - i.toNat
  else i.toNat

/-- The 5-tap binomial weights of the OpenCV sigma-0 5x5 Gaussian kernel,
scaled by 16. -/
def gw (k : Nat) : Nat := [1, 4, 6, 4, 1].getD k 0

/-- One blurred pixel: separable 5x5 convolution with reflected borders,
with the fixed-point rounding (acc + 128) / 256 of the uint8 filter path. -/
def blurPx (g : Gray) (i j : Nat) : Nat :=
  (((List.range 5).map (fun di =>
      ((List.range 5).map (fun dj =>
        gw di * gw dj *
          px g (reflect101 (height g) ((i : Int) + di - 2))
               (reflect101 (width g) ((j : Int) + dj - 2)))).sum)).sum + 128) / 256

/-- cv2.GaussianBlur(gray, (5,5), 0) over the whole image. -/
def gaussianBlur (g : Gray) : Gray :=
  (List.range (height g)).map (fun i =>
    (List.range (width g)).map (fun j => blurPx g i j))

/-- noise = cv2.absdiff(gray, blurred). -/
def noiseMap (g : Gray) : Gray :=
  (List.range (height g)).map (fun i =>
    (List.range (width g)).map (fun j => natAbsDiff (px g i j) (blurPx g i j)))

/-- Block start offsets of the loop for i in range(0, n - 32, 32): all
multiples of 32 strictly below n - 32 (note a block that would end exactly
at the border is dropped as well). -/
def blockStarts (n : Nat) : List Nat :=
  (List.range ((n - 32 + 31) / 32)).map (fun k => k * 32)

/-- The 1024 pixel values of the 32x32 block of an image at offset (i, j). -/
def blockVals (m : Gray) (i j : Nat) : List ℚ :=
  ((List.range 32).map (fun di =>
    (List.range 32).map (fun dj => (px m (i + di) (j + dj) : ℚ)))).flatten

/-- The list of per-block noise variances built by _noise_analysis. -/
def blockVariances (g : Gray) : List ℚ :=
  ((blockStarts (height g)).map (fun i =>
    (blockStarts (width g)).map (fun j => varQ (blockVals (noiseMap g) i j)))).flatten

/-- noise_score of _noise_analysis: min(np.std(variances) / 100, 1) when at
least one block exists, else 0.  np.std is the square root of the population
variance, hence the real-valued Real.sqrt. -/
noncomputable def noiseScore (g : Gray) : ℝ :=
  if blockVariances g = [] then 0
  else min (Real.sqrt ((varQ (blockVariances g) : ℚ) : ℝ) / 100) 1

/-- Modelled from the claim wording for comparison: the same blur/subtract
pipeline, blocks at every multiple of 32 that fits entirely (only partial
border blocks dropped), and score min(variance_of_variances / 100, 1) with
the variance itself, not its square root. -/
def specBlockStarts (n : Nat) : List Nat :=
  (List.range (n / 32)).map (fun k => k * 32)

/-- Modelled from the claim wording: block variances over the claim's
partition. -/
def specBlockVariances (g : Gray) : List ℚ :=
  ((specBlockStarts (height g)).map (fun i =>
    (specBlockStarts (width g)).map (fun j => varQ (blockVals (noiseMap g) i j)))).flatten

/-- Modelled from the claim wording: score = min(var_of_vars / 100, 1). -/
def noiseScoreSpec (g : Gray) : ℚ :=
  min (varQ (specBlockVariances g) / 100) 1

/-- A concrete 33x65 grayscale test image: all 33 rows identical, value 48
at columns 36, 40, ..., 60 and 0 elsewhere. -/
def testRow : List Nat :=
  (List.range 65).map (fun j => if 36 ≤ j ∧ j ≤ 60 ∧ (j - 36) % 4 = 0 then 48 else 0)

/-- The test buffer used to separate np.std from np.var in _noise_analysis. -/
def testBuf : Gray := List.replicate 33 testRow

/-- The 32x32 block values as naturals, before the cast to floats. -/
def blockValsNat (m : Gray) (i j : Nat) : List Nat :=
  ((List.range 32).map (fun di =>
    (List.range 32).map (fun dj => px m (i + di) (j + dj)))).flatten

/-- The noise map row produced by testBuf (all 33 rows are identical). -/
def noiseRow : List Nat :=
  [0, 0, 0, 0, 0, 0, 0, 0, 0, 0, 0, 0, 0, 0, 0, 0, 0, 0, 0, 0, 0, 0, 0, 0, 0, 0, 0, 0,
   0, 0, 0, 0, 0, 0, 3, 12, 30, 12, 6, 12, 30, 12, 6, 12, 30, 12, 6, 12, 30, 12, 6, 12,
   30, 12, 6, 12, 30, 12, 6, 12, 30, 12, 3, 0, 0]

/-- A uniform solid-color image. -/
def uniformGray (h w c : Nat) : Gray := List.replicate h (List.replicate w c)

/-! ### ManipulationDetector._frequency_analysis (lines 131-175)

np.fft.fft2 is the exact 2-D discrete Fourier transform (modelled over ℂ),
np.fft.fftshift rolls each axis by n // 2, and the high-frequency mask
zeroes the disk of radius 30 around the centre (crow, ccol). -/

/-- The 2-D DFT of the grayscale image, as computed by np.fft.fft2:
F[u, v] = sum over x, y of g[x, y] * exp(-2 pi i (u x / h + v y / w)). -/
noncomputable def dft2 (g : Gray) (u v : Nat) : ℂ :=
  ∑ x ∈ Finset.range (height g), ∑ y ∈ Finset.range (width g),
    (px g x y : ℂ) *
      Complex.exp (-(2 * Real.pi * Complex.I) *
        ((u : ℂ) * (x : ℂ) / (height g : ℂ) + (v : ℂ) * (y : ℂ) / (width g : ℂ)))

/-- np.fft.fftshift index map on one axis of length n: position i of the
shifted spectrum holds entry (i - n // 2) mod n of the unshifted one. -/
def shiftIdx (n i : Nat) : Nat := (i + n - n / 2) % n

/-- Magnitude spectrum after fftshift: np.abs(np.fft.fftshift(fft2(g))). -/
noncomputable def magShift (g : Gray) (i j : Nat) : ℝ :=
  Complex.abs (dft2 g (shiftIdx (height g) i) (shiftIdx (width g) j))

/-- The high-frequency mask: 0 on the disk of radius 30 centred at
(rows // 2, cols // 2), 1 outside it. -/
noncomputable def maskVal (h w i j : Nat) : ℝ :=
  if ((i : ℤ) - (h / 2 : Nat)) ^ 2 + ((j : ℤ) - (w / 2 : Nat)) ^ 2 ≤ 900 then 0 else 1

/-- high_freq_energy = np.sum(magnitude_spectrum * high_freq_mask). -/
noncomputable def highFreqEnergy (g : Gray) : ℝ :=
  ∑ i ∈ Finset.range (height g), ∑ j ∈ Finset.range (width g),
    magShift g i j * maskVal (height g) (width g) i j

/-- total_energy = np.sum(magnitude_spectrum). -/
noncomputable def totalEnergy (g : Gray) : ℝ :=
  ∑ i ∈ Finset.range (height g), ∑ j ∈ Finset.range (width g), magShift g i j

/-- high_freq_ratio, 0 when the total energy is not positive. -/
noncomputable def highFreqFrac (g : Gray) : ℝ :=
  if 0 < totalEnergy g then highFreqEnergy g / totalEnergy g else 0

/-- freq score: min(abs(high_freq_ratio - 0.5) * 2, 1.0). -/
noncomputable def freqScore (g : Gray) : ℝ :=
  min (|highFreqFrac g - 1/2| * 2) 1

/-! ### ManipulationDetector._error_level_analysis failure branch (127-129)
and the ELA score normalisation (line 123). -/

/-- ela_score = min(mean_ela / 50, 1) over the enhanced difference array. -/
def elaScoreOf (arr : List ℚ) : ℚ := min (meanQ arr / 50) 1

/-- An RGB pixel of the difference map. -/
abbrev RGB : Type := Nat × Nat × Nat

/-- A three-channel map, list of rows. -/
abbrev RGBMap : Type := List (List RGB)

/-- The constant 100 x 100 x 3 zero map returned when re-encoding fails. -/
def elaFailureMap : RGBMap := List.replicate 100 (List.replicate 100 (0, 0, 0))

/-- Outcome of _error_level_analysis: the computed (score, map) on success,
(0.0, np.zeros((100, 100, 3))) when the body raised. -/
def elaOutcome (r : Option (ℚ × RGBMap)) : ℚ × RGBMap := r.getD (0, elaFailureMap)

/-- Outcome of _frequency_analysis's score: 0.0 when the body raised. -/
def freqOutcome (r : Option ℚ) : ℚ := r.getD 0

/-- Outcome of _noise_analysis: 0.0 when the body raised. -/
def noiseOutcome (r : Option ℚ) : ℚ := r.getD 0

/-! ### ManipulationDetector._detect_manipulation_areas (lines 215-254)

cv2.findContours is external; its output is modelled as a list of contours,
each a nonempty list of (x, y) pixel coordinates of foreground points of the
binary mask.  cv2.boundingRect is the minimal axis-aligned rectangle of the
points and cv2.contourArea the shoelace polygon area. -/

/-- OpenCV RGB-to-gray conversion in its 14-bit fixed-point form
(0.299 R + 0.587 G + 0.114 B, rounded). -/
def rgb2grayPx (p : RGB) : Nat := (4899 * p.1 + 9617 * p.2.1 + 1868 * p.2.2 + 8192) / 16384

/-- cv2.cvtColor(map, COLOR_RGB2GRAY). -/
def rgb2gray (m : RGBMap) : Gray := m.map (fun row => row.map rgb2grayPx)

/-- cv2.threshold(gray, 30, 255, THRESH_BINARY): 255 where the pixel is
strictly above 30, else 0. -/
def thresholdBin (g : Gray) : Gray :=
  g.map (fun row => row.map (fun v => if 30 < v then 255 else 0))

/-- A contour: a list of (x, y) points, as returned by cv2.findContours. -/
abbrev Contour : Type := List (Nat × Nat)

/-- Minimum of a list of naturals (0 for the empty list). -/
def minL : List Nat → Nat
  | [] => 0
  | x :: xs => xs.foldl min x

/-- Maximum of a list of naturals (0 for the empty list). -/
def maxL : List Nat → Nat
  | [] => 0
  | x :: xs => xs.foldl max x

/-- cv2.boundingRect: (x, y, w, h) with x, y the minimal coordinates and
w, h the extents. -/
def boundingRect (c : Contour) : Nat × Nat × Nat × Nat :=
  (minL (c.map Prod.fst), minL (c.map Prod.snd),
   maxL (c.map Prod.fst) - minL (c.map Prod.fst) + 1,
   maxL (c.map Prod.snd) - minL (c.map Prod.snd) + 1)

/-- Shoelace sum of the closed polygon through the contour points. -/
def shoelace (c : Contour) : ℤ :=
  ((List.range c.length).map (fun k =>
    let p := c.getD k (0, 0)
    let q := c.getD ((k + 1) % c.length) (0, 0)
    (p.1 : ℤ) * (q.2 : ℤ) - (q.1 : ℤ) * (p.2 : ℤ))).sum

/-- cv2.contourArea: half the absolute shoelace sum. -/
def contourArea (c : Contour) : ℚ := ((shoelace c).natAbs : ℚ) / 2

/-- Mean intensity of gray over the box of width w, height h at (x, y),
divided by 255 (the per-region score of line 241). -/
def regionScore (g : Gray) (x y w h : Nat) : ℚ :=
  meanQ (((List.range h).map (fun di =>
    (List.range w).map (fun dj => (px g (y + di) (x + dj) : ℚ)))).flatten) / 255

/-- One ManipulationArea record: region = [x1, y1, x2, y2], score, type. -/
structure ManipulationArea where
  region : ℚ × ℚ × ℚ × ℚ
  score : ℚ
  kind : String
  deriving DecidableEq, Repr

/-- The region loop of _detect_manipulation_areas: keep contours of area
strictly above 1000 and emit the bounding box with the mean-intensity score. -/
def detectAreas (elaGray : Gray) (contours : List Contour) : List ManipulationArea :=
  (contours.filter (fun c => decide (contourArea c > 1000))).map (fun c =>
    let r := boundingRect c
    { region := ((r.1 : ℚ), (r.2.1 : ℚ), ((r.1 + r.2.2.1 : Nat) : ℚ), ((r.2.1 + r.2.2.2 : Nat) : ℚ)),
      score := regionScore elaGray r.1 r.2.1 r.2.2.1 r.2.2.2,
      kind := "suspicious" })

/-- A contour list is a plausible cv2.findContours output for a mask when
every contour is nonempty and all its points are foreground pixels of the
mask (contours trace nonzero components). -/
def ValidContours (mask : Gray) (contours : List Contour) : Prop :=
  ∀ c ∈ contours, c ≠ [] ∧ ∀ p ∈ c, 0 < px mask p.2 p.1

/-- Modelled from the spec: the availability-aware fusion the spec
prescribes for ManipulationDetector, in which a failed analyzer is excluded
from the weighted average (static weights 0.4 / 0.3 / 0.3) instead of
contributing a default score; 0.5 when no signal is available. -/
def excludedFusion (e f n : Option ℚ) : ℚ :=
  let sw : List (Option ℚ × ℚ) := [(e, 2/5), (f, 3/10), (n, 3/10)]
  let avail := sw.filterMap (fun p => p.1.map (fun s => (s, p.2)))
  let tw := (avail.map Prod.snd).sum
  if 0 < tw then (avail.map (fun p => p.1 * p.2)).sum / tw else 1/2

/-- Modelled from the claim wording of C3: the calibration formula with
threshold T applied to a raw score, then the agreement bonus
0.7 + (avail / total) * 0.3, capped at 1. -/
def claimedCalibration (T raw : ℚ) (manip : Bool) (avail total : Nat) : ℚ :=
  let base := if manip then min ((raw - T) / (1 - T)) 1 else min ((T - raw) / T) 1
  min (base * (7/10 + ((avail : ℚ) / (total : ℚ)) * (3/10))) 1

/-- Head of an area list (a placeholder area for the empty list). -/
def firstArea (l : List ManipulationArea) : ManipulationArea :=
  l.headD { region := (0, 0, 0, 0), score := 0, kind := "" }

/-- A concrete 40x40 all-255 difference map for exercising the localizer. -/
def witnessGray : Gray := uniformGray 40 40 255

/-- A concrete square contour with corners (0,0) and (39,39). -/
def witnessContour : Contour := [(0, 0), (39, 0), (39, 39), (0, 39)]

end ManipDetector

namespace AIDetector

open ApexVerify

/-! ### AIImageDetector._ensemble_decision (lines 426-490) -/

/-- One per-method result dict as produced by the four sub-analyzers of
AIImageDetector (keys score, confidence, available). -/
structure MethodResult where
  score : ℚ
  confidence : ℚ
  available : Bool
  deriving DecidableEq, Repr

/-- The results dict built in detect_ai_generated: exactly the four keys
vit_analysis, spectral_analysis, artifact_analysis, consistency_analysis. -/
structure Results where
  vit : MethodResult
  spectral : MethodResult
  artifact : MethodResult
  consistency : MethodResult
  deriving DecidableEq, Repr

/-- The static weights dict of _ensemble_decision, in its iteration order:
vit 0.40, spectral 0.25, artifact 0.20, consistency 0.15. -/
def methodList (r : Results) : List (ℚ × MethodResult) :=
  [(2/5, r.vit), (1/4, r.spectral), (1/5, r.artifact), (3/20, r.consistency)]

/-- One iteration of the fusion loop: if the method is available, add
score * (weight * confidence) to the score accumulator, weight * confidence
to the weight accumulator, and count it as an available method. -/
def fuseStep (acc : ℚ × ℚ × Nat) (p : ℚ × MethodResult) : ℚ × ℚ × Nat :=
  if p.2.available then
    (acc.1 + p.2.score * (p.1 * p.2.confidence),
     acc.2.1 + p.1 * p.2.confidence,
     acc.2.2 + 1)
  else acc

/-- The (total_score, total_weight, len(available_methods)) accumulator after
the fusion loop of _ensemble_decision. -/
def fuseAcc (r : Results) : ℚ × ℚ × Nat := (methodList r).foldl fuseStep (0, 0, 0)

/-- total_score after the loop. -/
def totalScore (r : Results) : ℚ := (fuseAcc r).1

/-- total_weight after the loop. -/
def totalWeight (r : Results) : ℚ := (fuseAcc r).2.1

/-- len(available_methods) after the loop. -/
def numAvailable (r : Results) : Nat := (fuseAcc r).2.2

/-- final_score of _ensemble_decision: total_score / total_weight when
total_weight > 0, else the maximally uncertain 0.5. -/
def finalScore (r : Results) : ℚ :=
  if 0 < totalWeight r then totalScore r / totalWeight r else 1/2

/-- Decision of _ensemble_decision: final_score > 0.65. -/
def isAIGenerated (r : Results) : Bool := decide (finalScore r > 13/20)

/-- Distance-from-threshold confidence of _ensemble_decision before the
agreement bonus: min((s - 0.65)/0.35, 1) when AI, min((0.65 - s)/0.65, 1)
otherwise. -/
def rawConfidence (r : Results) : ℚ :=
  if isAIGenerated r then min ((finalScore r - 13/20) / (7/20)) 1
  else min ((13/20 - finalScore r) / (13/20)) 1

/-- Final confidence of _ensemble_decision: the raw confidence scaled by the
agreement bonus 0.7 + (len(available_methods)/4) * 0.3 and capped at 1. -/
def confidence (r : Results) : ℚ :=
  min (rawConfidence r * (7/10 + ((numAvailable r : ℚ) / 4) * (3/10))) 1

/-- The decision_threshold value written into the evidence dict of
_ensemble_decision (line 487). -/
def evidenceDecisionThreshold : ℚ := 1/2

/-- The ai_threshold field set in AIImageDetector.__init__ (line 37). -/
def aiThresholdField : ℚ := 1/2

/-! ### The four analyzer boundaries of AIImageDetector (lines 116-424)

Each analyzer wraps its body in try/except; an Option none input models the
body having raised, in which case the analyzer returns an unavailable
result. -/

/-- _vit_detection: unavailable when the model is not loaded or the body
raised, else score = ai probability, confidence = max of the two class
probabilities. -/
def vitDetection (loaded : Bool) (r : Option (ℚ × ℚ)) : MethodResult :=
  if loaded then
    match r with
    | some p => { score := p.1, confidence := max p.1 p.2, available := true }
    | none => { score := 1/2, confidence := 0, available := false }
  else { score := 1/2, confidence := 0, available := false }

/-- _spectral_analysis: on success score = min(spectral_variance / 10, 1)
with fixed confidence 0.75; unavailable when the body raised. -/
def spectralAnalysis (r : Option ℚ) : MethodResult :=
  match r with
  | some sv => { score := min (sv / 10) 1, confidence := 3/4, available := true }
  | none => { score := 1/2, confidence := 0, available := false }

/-- _artifact_detection: on success the weighted 0.4 / 0.3 / 0.3 combination
of the grid, blur and edge sub-scores with fixed confidence 0.80;
unavailable when the body raised. -/
def artifactDetection (r : Option (ℚ × ℚ × ℚ)) : MethodResult :=
  match r with
  | some s =>
      { score := s.1 * (2/5) + s.2.1 * (3/10) + s.2.2 * (3/10),
        confidence := 4/5, available := true }
  | none => { score := 1/2, confidence := 0, available := false }

/-- _consistency_check: on success the 0.5 / 0.5 combination of the lighting
and color sub-scores with fixed confidence 0.70; unavailable when the body
raised. -/
def consistencyCheck (r : Option (ℚ × ℚ)) : MethodResult :=
  match r with
  | some s => { score := s.1 * (1/2) + s.2 * (1/2), confidence := 7/10, available := true }
  | none => { score := 1/2, confidence := 0, available := false }

/-- A Results value in which only the ViT method is available, carrying the
given score with confidence 1. -/
def resultsVitOnly (s : ℚ) : Results :=
  { vit := { score := s, confidence := 1, available := true },
    spectral := { score := 1/2, confidence := 0, available := false },
    artifact := { score := 1/2, confidence := 0, available := false },
    consistency := { score := 1/2, confidence := 0, available := false } }

/-- A Results value with no method available. -/
def resultsNone : Results :=
  { vit := { score := 1/2, confidence := 0, available := false },
    spectral := { score := 1/2, confidence := 0, available := false },
    artifact := { score := 1/2, confidence := 0, available := false },
    consistency := { score := 1/2, confidence := 0, available := false } }

/-- The sub-list of (weight, result) pairs whose method is marked
available, in iteration order — the signals the spec says fusion runs over. -/
def availableList (r : Results) : List (ℚ × MethodResult) :=
  (methodList r).filter (fun p => p.2.available)

/-- Modelled from the spec sentence of C1: the sum of effective weights
static_weight x confidence over exactly the available signals. -/
def specEffWeightSum (r : Results) : ℚ :=
  ((availableList r).map (fun p => p.1 * p.2.confidence)).sum

/-- Modelled from the spec sentence of C1: the sum of
score x effective_weight over exactly the available signals. -/
def specScoreWeightSum (r : Results) : ℚ :=
  ((availableList r).map (fun p => p.2.score * (p.1 * p.2.confidence))).sum

end AIDetector

/-! ## Theorems -/

namespace AIDetector

/-- The fusion loop accumulator equals the (score-weight sum, weight sum,
count) over the available sub-list. -/
lemma fuseAcc_eq (r : Results) :
    fuseAcc r = (specScoreWeightSum r, specEffWeightSum r, (availableList r).length) := by
  rcases r with ⟨⟨vs, vc, va⟩, ⟨ss, sc, sa⟩, ⟨as_, ac, aa⟩, ⟨cs, cc, ca⟩⟩
  cases va <;> cases sa <;> cases aa <;> cases ca <;>
    simp [fuseAcc, methodList, fuseStep, availableList, specScoreWeightSum,
      specEffWeightSum] <;> ring_nf <;> simp [add_comm, add_left_comm, add_assoc]

lemma totalWeight_eq (r : Results) : totalWeight r = specEffWeightSum r := by
  simp [totalWeight, fuseAcc_eq]

lemma totalScore_eq (r : Results) : totalScore r = specScoreWeightSum r := by
  simp [totalScore, fuseAcc_eq]

lemma numAvailable_eq (r : Results) : numAvailable r = (availableList r).length := by
  simp [numAvailable, fuseAcc_eq]

end AIDetector

open AIDetector in
/-- C1.  Signal fusion: whenever the total effective weight
(static weight x per-method confidence, summed over exactly the available
signals) is positive, the raw fusion score equals
sum(score x effective_weight) / sum(effective_weight); and when no signal is
available the raw score is 0.5. -/
theorem c1_fusion_weighted_average (r : Results) :
    (0 < specEffWeightSum r → finalScore r = specScoreWeightSum r / specEffWeightSum r) ∧
    (availableList r = [] → finalScore r = 1/2) := by
  constructor
  · intro h
    rw [finalScore, totalWeight_eq, totalScore_eq, if_pos h]
  · intro h
    rw [finalScore, totalWeight_eq, specEffWeightSum, h]
    simp

open AIDetector in
/-- Witness for C1 at a concrete input: with only the ViT signal available
at score 0.3 and confidence 1, the effective weight sum is 0.4 > 0 and the
fused score is the weighted average. -/
theorem c1_fusion_weighted_average_witness :
    0 < specEffWeightSum (resultsVitOnly (3/10)) ∧
      finalScore (resultsVitOnly (3/10)) =
        specScoreWeightSum (resultsVitOnly (3/10)) / specEffWeightSum (resultsVitOnly (3/10)) := by
  have h : 0 < specEffWeightSum (resultsVitOnly (3/10)) := by
    norm_num [specEffWeightSum, availableList, methodList, resultsVitOnly]
  exact ⟨h, (c1_fusion_weighted_average (resultsVitOnly (3/10))).1 h⟩

namespace AIDetector

/-- With only the ViT method available at confidence 1, the fused score is
the ViT score itself. -/
lemma finalScore_resultsVitOnly (s : ℚ) : finalScore (resultsVitOnly s) = s := by
  have h1 : specEffWeightSum (resultsVitOnly s) = 2/5 := by
    simp [specEffWeightSum, availableList, methodList, resultsVitOnly]
  have h2 : specScoreWeightSum (resultsVitOnly s) = s * (2/5) := by
    simp [specScoreWeightSum, availableList, methodList, resultsVitOnly]
  rw [finalScore, totalWeight_eq, totalScore_eq, h1, h2, if_pos (by norm_num)]
  ring

end AIDetector

open AIDetector ManipDetector in
/-- Counterexample to C2.  The raw score 0.675 is classified AI-generated by
AIImageDetector._ensemble_decision (0.675 > 0.65) but not manipulated by
ManipulationDetector.analyze (0.675 is not > 0.70): the two call sites
compare against different threshold constants, so there is no single
THRESHOLD shared by both. -/
theorem c2_counterexample :
    finalScore (resultsVitOnly (27/40)) = 27/40 ∧
    isAIGenerated (resultsVitOnly (27/40)) = true ∧
    manipConfidence (27/40) (27/40) (27/40) = 27/40 ∧
    manipIsManipulated (27/40) (27/40) (27/40) = false := by
  refine ⟨finalScore_resultsVitOnly _, ?_, by norm_num [manipConfidence], ?_⟩
  · simp only [isAIGenerated, finalScore_resultsVitOnly, decide_eq_true_eq]
    norm_num
  · simp only [manipIsManipulated, decide_eq_false_iff_not, not_lt]
    norm_num [manipConfidence]

open AIDetector ManipDetector in
/-- C2 amended.  Each call site does decide is_manipulated by a strict
comparison of its raw fusion score against a fixed constant, but the
constant is not a single source of truth: AIImageDetector uses 0.65,
ManipulationDetector uses 0.70, and the evidence dict reports yet another
value, 0.5. -/
theorem c2_threshold_per_site :
    (∀ r : Results, isAIGenerated r = true ↔ finalScore r > 13/20) ∧
    (∀ e f n : ℚ, manipIsManipulated e f n = true ↔ manipConfidence e f n > 7/10) ∧
    (13/20 : ℚ) ≠ 7/10 ∧
    evidenceDecisionThreshold ≠ 13/20 ∧ evidenceDecisionThreshold ≠ 7/10 := by
  refine ⟨fun r => ?_, fun e f n => ?_, by norm_num, ?_, ?_⟩
  · simp [isAIGenerated]
  · simp [manipIsManipulated]
  · norm_num [evidenceDecisionThreshold]
  · norm_num [evidenceDecisionThreshold]

open ManipDetector in
/-- C7.  The manipulation type is non-null exactly when the verdict is
manipulated, and is then ai_generated when the ELA score exceeds 0.85, else
splice when the frequency score exceeds 0.75, else clone. -/
theorem c7_type_classification (e f n : ℚ) :
    (manipulationType e f n ≠ none ↔ manipIsManipulated e f n = true) ∧
    (manipIsManipulated e f n = true →
      manipulationType e f n =
        some (if e > 17/20 then ManipType.ai_generated
              else if f > 3/4 then ManipType.splice
              else ManipType.clone)) := by
  constructor
  · unfold manipulationType
    cases h : manipIsManipulated e f n <;> simp [h] <;> split_ifs <;> simp
  · intro h
    unfold manipulationType
    rw [if_pos h]
    split_ifs <;> rfl

open ManipDetector in
/-- Witness for C7 at a concrete input: with all three scores equal to 1 the
verdict is manipulated and, since the ELA score exceeds 0.85, the type is
ai_generated. -/
theorem c7_type_classification_witness :
    manipIsManipulated 1 1 1 = true ∧ manipulationType 1 1 1 = some ManipType.ai_generated := by
  have h : manipIsManipulated 1 1 1 = true := by
    simp only [manipIsManipulated, decide_eq_true_eq]
    norm_num [manipConfidence]
  refine ⟨h, ?_⟩
  rw [(c7_type_classification 1 1 1).2 h, if_pos (by norm_num)]

namespace AIDetector

/-- The distance-from-threshold confidence is non-negative. -/
lemma rawConfidence_nonneg (r : Results) : 0 ≤ rawConfidence r := by
  unfold rawConfidence
  split_ifs with h
  · simp only [isAIGenerated, decide_eq_true_eq] at h
    have : (0 : ℚ) ≤ (finalScore r - 13/20) / (7/20) := by
      apply div_nonneg (by linarith) (by norm_num)
    exact le_min this (by norm_num)
  · simp only [isAIGenerated, decide_eq_true_eq, not_lt] at h
    have : (0 : ℚ) ≤ (13/20 - finalScore r) / (13/20) := by
      apply div_nonneg (by linarith) (by norm_num)
    exact le_min this (by norm_num)

/-- The distance-from-threshold confidence depends only on the final score. -/
lemma rawConfidence_eq_of_finalScore {r r' : Results}
    (h : finalScore r = finalScore r') : rawConfidence r = rawConfidence r' := by
  unfold rawConfidence isAIGenerated
  rw [h]

end AIDetector

open AIDetector ManipDetector in
/-- Counterexample to C3.  ManipulationDetector.analyze does not implement
the claimed calibration: with all three scores at 0.8 the raw score is 0.8
and the returned confidence is the raw score 0.8 itself, while the claimed
formula (threshold 0.70, all signals available) yields 1/3. -/
theorem c3_counterexample :
    manipConfidence (4/5) (4/5) (4/5) = 4/5 ∧
    manipIsManipulated (4/5) (4/5) (4/5) = true ∧
    finalConfidence (4/5) (4/5) (4/5) = 4/5 ∧
    claimedCalibration (7/10) (4/5) true 3 3 = 1/3 ∧
    (4/5 : ℚ) ≠ 1/3 := by
  have hc : manipConfidence (4/5) (4/5) (4/5) = 4/5 := by norm_num [manipConfidence]
  have hm : manipIsManipulated (4/5) (4/5) (4/5) = true := by
    simp only [manipIsManipulated, decide_eq_true_eq]
    rw [hc]; norm_num
  refine ⟨hc, hm, ?_, ?_, by norm_num⟩
  · rw [finalConfidence, if_pos hm, hc]
  · rw [claimedCalibration]
    norm_num [min_def]

open AIDetector ManipDetector in
/-- C3 amended.  AIImageDetector._ensemble_decision implements the claimed
calibration with THRESHOLD = 0.65 and four total signals: the oriented
distance-from-threshold confidence, scaled by the agreement bonus
0.7 + (available / 4) * 0.3 and capped at 1; with the same raw score, more
available signals never lower the confidence.  ManipulationDetector.analyze
instead returns the raw score when manipulated and its complement
otherwise, with no bonus. -/
theorem c3_confidence_calibration :
    (∀ r : Results,
      confidence r =
        min ((if isAIGenerated r then min ((finalScore r - 13/20) / (1 - 13/20)) 1
              else min ((13/20 - finalScore r) / (13/20)) 1) *
          (7/10 + ((numAvailable r : ℚ) / 4) * (3/10))) 1) ∧
    (∀ r r' : Results, finalScore r = finalScore r' → numAvailable r ≤ numAvailable r' →
      confidence r ≤ confidence r') ∧
    (∀ e f n : ℚ,
      finalConfidence e f n =
        if manipIsManipulated e f n then manipConfidence e f n
        else 1 - manipConfidence e f n) := by
  refine ⟨fun r => ?_, fun r r' hs hn => ?_, fun e f n => rfl⟩
  · have : (1 : ℚ) - 13/20 = 7/20 := by norm_num
    rw [confidence, rawConfidence, this]
  · unfold confidence
    apply min_le_min _ le_rfl
    rw [rawConfidence_eq_of_finalScore hs]
    apply mul_le_mul_of_nonneg_left _ (rawConfidence_nonneg r')
    have : (numAvailable r : ℚ) ≤ (numAvailable r' : ℚ) := Nat.cast_le.2 hn
    linarith

namespace AIDetector

/-- The all-unavailable ensemble has fused score 0.5. -/
lemma finalScore_resultsNone : finalScore resultsNone = 1/2 := by
  rw [finalScore, totalWeight_eq]
  rw [if_neg]
  simp [specEffWeightSum, availableList, methodList, resultsNone]

/-- The all-unavailable ensemble has zero available methods. -/
lemma numAvailable_resultsNone : numAvailable resultsNone = 0 := by
  rw [numAvailable_eq]
  simp [availableList, methodList, resultsNone]

/-- With only ViT available there is exactly one available method. -/
lemma numAvailable_resultsVitOnly (s : ℚ) : numAvailable (resultsVitOnly s) = 1 := by
  rw [numAvailable_eq]
  simp [availableList, methodList, resultsVitOnly]

end AIDetector

open AIDetector in
/-- Witness for C3 at concrete inputs: the no-signal ensemble and the
ViT-only ensemble share the raw score 0.5, and the verdict with more
available signals has confidence at least as large. -/
theorem c3_confidence_calibration_witness :
    confidence resultsNone ≤ confidence (resultsVitOnly (1/2)) := by
  apply c3_confidence_calibration.2.1
  · rw [finalScore_resultsNone, finalScore_resultsVitOnly]
  · rw [numAvailable_resultsNone, numAvailable_resultsVitOnly]
    norm_num

namespace ApexVerify

/-- The mean of a list of non-negative rationals is non-negative. -/
lemma meanQ_nonneg {arr : List ℚ} (h : ∀ x ∈ arr, 0 ≤ x) : 0 ≤ meanQ arr := by
  unfold meanQ
  split_ifs
  · exact le_refl 0
  · exact div_nonneg (List.sum_nonneg h) (Nat.cast_nonneg _)

end ApexVerify

open ApexVerify AIDetector ManipDetector in
/-- C4.  Range invariant: the ELA score (over any non-negative enhanced
difference array), the frequency score and the noise score all lie in
[0, 1]; the ensemble confidence of AIImageDetector lies in [0, 1] for every
signal set; and the oriented confidence of ManipulationDetector lies in
[0, 1] whenever its three component scores do. -/
theorem c4_range_invariant :
    (∀ arr : List ℚ, (∀ x ∈ arr, 0 ≤ x) → 0 ≤ elaScoreOf arr ∧ elaScoreOf arr ≤ 1) ∧
    (∀ g : Gray, 0 ≤ freqScore g ∧ freqScore g ≤ 1) ∧
    (∀ g : Gray, 0 ≤ noiseScore g ∧ noiseScore g ≤ 1) ∧
    (∀ r : Results, 0 ≤ AIDetector.confidence r ∧ AIDetector.confidence r ≤ 1) ∧
    (∀ e f n : ℚ, 0 ≤ e → e ≤ 1 → 0 ≤ f → f ≤ 1 → 0 ≤ n → n ≤ 1 →
      0 ≤ finalConfidence e f n ∧ finalConfidence e f n ≤ 1) := by
  refine ⟨fun arr h => ⟨?_, min_le_right _ _⟩, fun g => ⟨?_, min_le_right _ _⟩,
    fun g => ?_, fun r => ⟨?_, min_le_right _ _⟩, fun e f n he0 he1 hf0 hf1 hn0 hn1 => ?_⟩
  · exact le_min (div_nonneg (meanQ_nonneg h) (by norm_num)) (by norm_num)
  · exact le_min (mul_nonneg (abs_nonneg _) (by norm_num)) (by norm_num)
  · unfold noiseScore
    split_ifs
    · norm_num
    · exact ⟨le_min (div_nonneg (Real.sqrt_nonneg _) (by norm_num)) (by norm_num),
        min_le_right _ _⟩
  · refine le_min (mul_nonneg (rawConfidence_nonneg r) ?_) (by norm_num)
    have : (0 : ℚ) ≤ (numAvailable r : ℚ) := Nat.cast_nonneg _
    linarith
  · unfold finalConfidence manipConfidence
    split_ifs <;> constructor <;> linarith

open ApexVerify AIDetector ManipDetector in
/-- Witness for C4 at concrete inputs: the one-element array [5] and the
component scores (1/2, 1/2, 1/2). -/
theorem c4_range_invariant_witness :
    (0 ≤ elaScoreOf [5] ∧ elaScoreOf [5] ≤ 1) ∧
    (0 ≤ finalConfidence (1/2) (1/2) (1/2) ∧ finalConfidence (1/2) (1/2) (1/2) ≤ 1) := by
  refine ⟨c4_range_invariant.1 [5] ?_, ?_⟩
  · intro x hx
    simp only [List.mem_singleton] at hx
    rw [hx]; norm_num
  · exact c4_range_invariant.2.2.2.2 (1/2) (1/2) (1/2)
      (by norm_num) (by norm_num) (by norm_num) (by norm_num) (by norm_num) (by norm_num)

open AIDetector ManipDetector in
/-- Counterexample to C8.  In ManipulationDetector, a failed ELA analyzer is
caught but converted into the default score 0.0 that stays inside the
weighted fusion with its full 0.4 weight: with the other two scores at 1 the
fused score is 0.6 (verdict authentic), whereas the exclusion semantics the
claim requires would fuse the remaining signals to 1 (verdict manipulated).
The failed signal is therefore not excluded from fusion. -/
theorem c8_counterexample :
    (elaOutcome none).1 = 0 ∧
    manipConfidence (elaOutcome none).1 1 1 = 3/5 ∧
    manipIsManipulated (elaOutcome none).1 1 1 = false ∧
    excludedFusion none (some 1) (some 1) = 1 ∧
    (3/5 : ℚ) ≠ 1 := by
  have h0 : (elaOutcome none).1 = 0 := rfl
  have hc : manipConfidence (elaOutcome none).1 1 1 = 3/5 := by
    rw [h0]; norm_num [manipConfidence]
  refine ⟨h0, hc, ?_, ?_, by norm_num⟩
  · simp only [manipIsManipulated, decide_eq_false_iff_not, not_lt, hc]
    norm_num
  · simp only [excludedFusion, List.filterMap, Option.map]
    norm_num

open AIDetector ManipDetector in
/-- C8 amended.  In AIImageDetector each of the four analyzers converts a
raised body into an unavailable signal; the fusion verdict depends only on
the list of available signals, so unavailable ones are excluded, and an
empty available set degrades to the raw score 0.5 and verdict authentic
rather than erroring.  In ManipulationDetector the per-analyzer failures are
caught at the analyzer boundary but become default scores (ELA 0.0,
frequency 0.0, noise 0.0) that remain inside the weighted fusion with full
weight. -/
theorem c8_failure_containment :
    ((vitDetection true none).available = false ∧
      (∀ b, (vitDetection false b).available = false) ∧
      (spectralAnalysis none).available = false ∧
      (artifactDetection none).available = false ∧
      (consistencyCheck none).available = false) ∧
    (∀ r r' : Results, availableList r = availableList r' →
      finalScore r = finalScore r' ∧ isAIGenerated r = isAIGenerated r' ∧
        AIDetector.confidence r = AIDetector.confidence r') ∧
    (∀ r : Results, availableList r = [] →
      finalScore r = 1/2 ∧ isAIGenerated r = false) ∧
    ((elaOutcome none).1 = 0 ∧ freqOutcome none = 0 ∧ noiseOutcome none = 0 ∧
      ∀ f n : ℚ, manipConfidence (elaOutcome none).1 f n = f * (3/10) + n * (3/10)) := by
  have hfs : ∀ r r' : Results, availableList r = availableList r' →
      finalScore r = finalScore r' := by
    intro r r' h
    rw [finalScore, finalScore, totalWeight_eq, totalWeight_eq, totalScore_eq,
      totalScore_eq, specEffWeightSum, specEffWeightSum, specScoreWeightSum,
      specScoreWeightSum, h]
  refine ⟨⟨rfl, fun b => rfl, rfl, rfl, rfl⟩, fun r r' h => ?_, fun r h => ?_, ?_⟩
  · have h1 := hfs r r' h
    refine ⟨h1, ?_, ?_⟩
    · rw [isAIGenerated, isAIGenerated, h1]
    · rw [AIDetector.confidence, AIDetector.confidence,
        rawConfidence_eq_of_finalScore h1, numAvailable_eq, numAvailable_eq, h]
  · have h1 : finalScore r = 1/2 := by
      rw [finalScore, totalWeight_eq, specEffWeightSum, h]
      simp
    refine ⟨h1, ?_⟩
    rw [isAIGenerated, h1]
    norm_num
  · refine ⟨rfl, rfl, rfl, fun f n => ?_⟩
    show manipConfidence 0 f n = f * (3/10) + n * (3/10)
    rw [manipConfidence]; ring

open AIDetector in
/-- Witness for C8 at a concrete input: the empty signal set degrades to the
maximally uncertain raw score and the authentic verdict, and a duplicate of
it fuses identically. -/
theorem c8_failure_containment_witness :
    (finalScore resultsNone = 1/2 ∧ isAIGenerated resultsNone = false) ∧
    finalScore resultsNone = finalScore resultsNone := by
  refine ⟨c8_failure_containment.2.2.1 resultsNone ?_,
    (c8_failure_containment.2.1 resultsNone resultsNone rfl).1⟩
  simp [availableList, methodList, resultsNone]

namespace ManipDetector

lemma foldl_min_le_init (xs : List Nat) (a : Nat) : xs.foldl min a ≤ a := by
  induction xs generalizing a with
  | nil => exact le_rfl
  | cons y ys ih => exact le_trans (ih (min a y)) (min_le_left a y)

lemma foldl_min_le_mem {x : Nat} :
    ∀ (xs : List Nat) (a : Nat), x ∈ xs → xs.foldl min a ≤ x := by
  intro xs
  induction xs with
  | nil => intro a h; cases h
  | cons y ys ih =>
    intro a h
    rcases List.mem_cons.1 h with h | h
    · subst h
      exact le_trans (foldl_min_le_init ys _) (min_le_right a x)
    · exact ih _ h

/-- The bounding-rectangle minimum is a lower bound of the coordinates. -/
lemma minL_le {l : List Nat} {x : Nat} (hx : x ∈ l) : minL l ≤ x := by
  cases l with
  | nil => cases hx
  | cons y ys =>
    rcases List.mem_cons.1 hx with h | h
    · subst h; exact foldl_min_le_init ys x
    · exact foldl_min_le_mem ys y h

lemma init_le_foldl_max (xs : List Nat) (a : Nat) : a ≤ xs.foldl max a := by
  induction xs generalizing a with
  | nil => exact le_rfl
  | cons y ys ih => exact le_trans (le_max_left a y) (ih (max a y))

lemma mem_le_foldl_max {x : Nat} :
    ∀ (xs : List Nat) (a : Nat), x ∈ xs → x ≤ xs.foldl max a := by
  intro xs
  induction xs with
  | nil => intro a h; cases h
  | cons y ys ih =>
    intro a h
    rcases List.mem_cons.1 h with h | h
    · subst h
      exact le_trans (le_max_right a x) (init_le_foldl_max ys _)
    · exact ih _ h

/-- The bounding-rectangle maximum is an upper bound of the coordinates. -/
lemma le_maxL {l : List Nat} {x : Nat} (hx : x ∈ l) : x ≤ maxL l := by
  cases l with
  | nil => cases hx
  | cons y ys =>
    rcases List.mem_cons.1 hx with h | h
    · subst h; exact init_le_foldl_max ys x
    · exact mem_le_foldl_max ys y h

lemma foldl_max_mem (xs : List Nat) (a : Nat) : xs.foldl max a = a ∨ xs.foldl max a ∈ xs := by
  induction xs generalizing a with
  | nil => exact Or.inl rfl
  | cons y ys ih =>
    rcases ih (max a y) with h | h
    · rcases max_choice a y with hm | hm
      · exact Or.inl (by rw [List.foldl, h, hm])
      · exact Or.inr (by rw [List.foldl, h, hm]; exact List.mem_cons_self _ _)
    · exact Or.inr (List.mem_cons_of_mem _ h)

/-- The bounding-rectangle maximum is attained on a nonempty list. -/
lemma maxL_mem {l : List Nat} (h : l ≠ []) : maxL l ∈ l := by
  cases l with
  | nil => exact absurd rfl h
  | cons y ys =>
    rcases foldl_max_mem ys y with h1 | h1
    · rw [maxL, h1]; exact List.mem_cons_self _ _
    · exact List.mem_cons_of_mem _ h1

end ManipDetector

namespace ApexVerify

/-- The mean of a list bounded above by B is at most B (for 0 ≤ B). -/
lemma meanQ_le {arr : List ℚ} {B : ℚ} (hB : 0 ≤ B) (h : ∀ x ∈ arr, x ≤ B) :
    meanQ arr ≤ B := by
  unfold meanQ
  split_ifs with he
  · exact hB
  · have hlen : 0 < (arr.length : ℚ) := by
      have h0 : arr.length ≠ 0 := fun h0 => he (List.length_eq_zero.1 h0)
      exact_mod_cast Nat.pos_of_ne_zero h0
    rw [div_le_iff hlen]
    calc arr.sum ≤ arr.length • B := List.sum_le_card_nsmul arr B h
      _ = (arr.length : ℚ) * B := nsmul_eq_mul _ _
      _ = B * arr.length := mul_comm _ _

end ApexVerify

namespace ManipDetector

open ApexVerify

/-- The per-region score (box mean over 255) lies in [0, 1] whenever all
map entries are 8-bit values. -/
lemma regionScore_bounds (g : Gray) (hpx : ∀ i j, px g i j ≤ 255) (x y w h : Nat) :
    0 ≤ regionScore g x y w h ∧ regionScore g x y w h ≤ 1 := by
  have hmem : ∀ v ∈ (((List.range h).map (fun di =>
      (List.range w).map (fun dj => (px g (y + di) (x + dj) : ℚ)))).flatten),
      0 ≤ v ∧ v ≤ 255 := by
    intro v hv
    rcases List.mem_flatten.1 hv with ⟨row, hrow, hvrow⟩
    rcases List.mem_map.1 hrow with ⟨di, _, rfl⟩
    rcases List.mem_map.1 hvrow with ⟨dj, _, rfl⟩
    exact ⟨Nat.cast_nonneg _, by exact_mod_cast hpx (y + di) (x + dj)⟩
  constructor
  · exact div_nonneg (meanQ_nonneg (fun v hv => (hmem v hv).1)) (by norm_num)
  · rw [regionScore, div_le_one (by norm_num)]
    exact meanQ_le (by norm_num) (fun v hv => (hmem v hv).2)

end ManipDetector

open ApexVerify ManipDetector in
/-- C9.  Region validity: under the cv2 contracts that the difference map is
8-bit and contour points are in-bounds foreground pixel coordinates, every
emitted ManipulationArea comes from a contour of shoelace area above 1000,
its box [x1, y1, x2, y2] satisfies x1 < x2, y1 < y2, x2 ≤ width and
y2 ≤ height of the map, and its score is the mean map intensity of the box
divided by 255, lying in [0, 1]. -/
theorem c9_region_validity (elaGray : Gray) (contours : List Contour)
    (hpx : ∀ i j, px elaGray i j ≤ 255)
    (hc : ∀ c ∈ contours, c ≠ [] ∧
      ∀ p ∈ c, p.1 < width elaGray ∧ p.2 < height elaGray) :
    ∀ a ∈ detectAreas elaGray contours,
      ∃ c ∈ contours, contourArea c > 1000 ∧
        ∃ x1 y1 bw bh : Nat,
          boundingRect c = (x1, y1, bw, bh) ∧
          a.region = ((x1 : ℚ), (y1 : ℚ), ((x1 + bw : Nat) : ℚ), ((y1 + bh : Nat) : ℚ)) ∧
          a.score = regionScore elaGray x1 y1 bw bh ∧
          0 < bw ∧ 0 < bh ∧
          x1 + bw ≤ width elaGray ∧ y1 + bh ≤ height elaGray ∧
          0 ≤ a.score ∧ a.score ≤ 1 := by
  intro a ha
  rcases List.mem_map.1 ha with ⟨c, hcf, rfl⟩
  rcases List.mem_filter.1 hcf with ⟨hcmem, hdec⟩
  have harea : contourArea c > 1000 := of_decide_eq_true hdec
  obtain ⟨hne, hpts⟩ := hc c hcmem
  have hxs : c.map Prod.fst ≠ [] := fun h => hne (List.map_eq_nil.1 h)
  have hys : c.map Prod.snd ≠ [] := fun h => hne (List.map_eq_nil.1 h)
  have hxminmax : minL (c.map Prod.fst) ≤ maxL (c.map Prod.fst) := minL_le (maxL_mem hxs)
  have hyminmax : minL (c.map Prod.snd) ≤ maxL (c.map Prod.snd) := minL_le (maxL_mem hys)
  have hxW : maxL (c.map Prod.fst) < width elaGray := by
    rcases List.mem_map.1 (maxL_mem hxs) with ⟨p, hp, he⟩
    rw [← he]
    exact (hpts p hp).1
  have hyH : maxL (c.map Prod.snd) < height elaGray := by
    rcases List.mem_map.1 (maxL_mem hys) with ⟨p, hp, he⟩
    rw [← he]
    exact (hpts p hp).2
  refine ⟨c, hcmem, harea, minL (c.map Prod.fst), minL (c.map Prod.snd),
    maxL (c.map Prod.fst) - minL (c.map Prod.fst) + 1,
    maxL (c.map Prod.snd) - minL (c.map Prod.snd) + 1,
    rfl, rfl, rfl, Nat.succ_pos _, Nat.succ_pos _, by omega, by omega, ?_, ?_⟩
  · exact (regionScore_bounds elaGray hpx _ _ _ _).1
  · exact (regionScore_bounds elaGray hpx _ _ _ _).2

namespace ApexVerify

lemma get_replicate_eq {α : Type} (a : α) :
    ∀ (n i : Nat), (List.replicate n a).get? i = if i < n then some a else none := by
  intro n
  induction n with
  | zero => intro i; simp
  | succ m ih =>
    intro i
    cases i with
    | zero => simp [List.replicate]
    | succ k =>
      have hstep : (List.replicate (m + 1) a).get? (k + 1) = (List.replicate m a).get? k := rfl
      rw [hstep, ih k]
      simp [Nat.succ_lt_succ_iff]

end ApexVerify

namespace ManipDetector

open ApexVerify

/-- A pixel of a uniform image is its color in bounds and 0 outside. -/
lemma px_uniform (h w c i j : Nat) :
    px (uniformGray h w c) i j = if i < h ∧ j < w then c else 0 := by
  unfold px uniformGray
  rw [get_replicate_eq]
  by_cases hi : i < h
  · rw [if_pos hi]
    simp only [Option.some_bind]
    rw [get_replicate_eq]
    by_cases hj : j < w
    · rw [if_pos hj, if_pos ⟨hi, hj⟩]
      rfl
    · rw [if_neg hj, if_neg (fun hh => hj hh.2)]
      rfl
  · rw [if_neg hi, if_neg (fun hh => hi hh.1)]
    rfl

/-- The head of a nonempty area list is a member. -/
lemma firstArea_mem {l : List ManipulationArea} (h : l ≠ []) : firstArea l ∈ l := by
  cases l with
  | nil => exact absurd rfl h
  | cons a as => exact List.mem_cons_self _ _

end ManipDetector

open ApexVerify ManipDetector in
/-- Witness for C9 at a concrete input: a 40x40 all-255 map with one square
contour of area 1521 produces a first region whose score lies in [0, 1]. -/
theorem c9_region_validity_witness :
    0 ≤ (firstArea (detectAreas witnessGray [witnessContour])).score ∧
    (firstArea (detectAreas witnessGray [witnessContour])).score ≤ 1 := by
  have hpx : ∀ i j, px witnessGray i j ≤ 255 := by
    intro i j
    rw [witnessGray, px_uniform]
    split_ifs <;> norm_num
  have hc : ∀ c ∈ [witnessContour], c ≠ [] ∧
      ∀ p ∈ c, p.1 < width witnessGray ∧ p.2 < height witnessGray := by
    intro c hcm
    rw [List.mem_singleton] at hcm
    subst hcm
    refine ⟨by simp [witnessContour], ?_⟩
    intro p hp
    have hw : width witnessGray = 40 := rfl
    have hh : height witnessGray = 40 := rfl
    rw [hw, hh]
    simp only [witnessContour, List.mem_cons, List.mem_singleton, List.not_mem_nil,
      or_false] at hp
    rcases hp with rfl | rfl | rfl | rfl
    · exact ⟨by norm_num, by norm_num⟩
    · exact ⟨by norm_num, by norm_num⟩
    · exact ⟨by norm_num, by norm_num⟩
    · exact ⟨by norm_num, by norm_num⟩
  have harea : contourArea witnessContour > 1000 := by
    have h1 : (shoelace witnessContour).natAbs = 3042 := by decide
    rw [contourArea, h1]
    norm_num
  have hdec : decide (contourArea witnessContour > 1000) = true := decide_eq_true harea
  have hfilter : List.filter (fun c => decide (contourArea c > 1000)) [witnessContour] =
      [witnessContour] := by
    rw [List.filter_cons]
    simp [hdec]
  have hne : detectAreas witnessGray [witnessContour] ≠ [] := by
    unfold detectAreas
    rw [hfilter]
    simp
  obtain ⟨c, _, _, x1, y1, bw, bh, _, _, _, _, _, _, _, hs0, hs1⟩ :=
    c9_region_validity witnessGray [witnessContour] hpx hc _ (firstArea_mem hne)
  exact ⟨hs0, hs1⟩

namespace ManipDetector

open ApexVerify

/-- The thresholded grayscale of the ELA failure map is the all-zero mask. -/
lemma thresholdBin_elaFailure : thresholdBin (rgb2gray elaFailureMap) = uniformGray 100 100 0 := by
  have h0 : rgb2grayPx (0, 0, 0) = 0 := rfl
  simp only [elaFailureMap, rgb2gray, thresholdBin, uniformGray, List.map_replicate, h0]
  rw [if_neg (by decide)]

end ManipDetector

open ApexVerify ManipDetector in
/-- C10.  When re-encoding fails, _error_level_analysis returns score 0.0
with the fixed 100 x 100 x 3 all-zero difference map; its thresholded mask is
identically zero, so any plausible cv2.findContours output for that mask is
empty and the region localizer emits no region. -/
theorem c10_ela_failure_fallback :
    elaOutcome none = (0, elaFailureMap) ∧
    elaFailureMap.length = 100 ∧
    (∀ row ∈ elaFailureMap, row.length = 100 ∧ ∀ p ∈ row, p = (0, 0, 0)) ∧
    (∀ i j, px (thresholdBin (rgb2gray elaFailureMap)) i j = 0) ∧
    (∀ contours : List Contour,
      ValidContours (thresholdBin (rgb2gray elaFailureMap)) contours →
      detectAreas (rgb2gray elaFailureMap) contours = []) := by
  have hzero : ∀ i j, px (thresholdBin (rgb2gray elaFailureMap)) i j = 0 := by
    intro i j
    rw [thresholdBin_elaFailure, px_uniform]
    split_ifs <;> rfl
  refine ⟨rfl, by simp [elaFailureMap], ?_, hzero, ?_⟩
  · intro row hrow
    have hr : row = List.replicate 100 ((0, 0, 0) : RGB) :=
      List.eq_of_mem_replicate hrow
    subst hr
    exact ⟨by simp, fun p hp => List.eq_of_mem_replicate hp⟩
  · intro contours hv
    have hnil : contours = [] := by
      cases contours with
      | nil => rfl
      | cons c cs =>
        exfalso
        obtain ⟨hne, hfg⟩ := hv c (List.mem_cons_self _ _)
        cases c with
        | nil => exact hne rfl
        | cons p ps =>
          have hfp := hfg p (List.mem_cons_self _ _)
          rw [hzero p.2 p.1] at hfp
          exact Nat.lt_irrefl 0 hfp
    subst hnil
    rfl

open ApexVerify ManipDetector in
/-- Witness for C10 at a concrete input: the empty contour list is a valid
findContours output for the zero mask, and yields no region. -/
theorem c10_ela_failure_fallback_witness :
    detectAreas (rgb2gray elaFailureMap) [] = [] := by
  exact c10_ela_failure_fallback.2.2.2.2 [] (fun c hc => absurd hc (List.not_mem_nil c))

namespace ManipDetector

open ApexVerify

set_option maxRecDepth 1000000 in
set_option maxHeartbeats 4000000 in
/-- The full blur/subtract pipeline on testBuf, computed by the kernel. -/
lemma noiseMap_testBuf : noiseMap testBuf = List.replicate 33 noiseRow := by decide

lemma blockValsNat_length (m : Gray) (i j : Nat) : (blockValsNat m i j).length = 1024 := by
  simp [blockValsNat, List.length_flatten, List.map_map, Function.comp_def,
    List.map_const', List.sum_replicate, smul_eq_mul]

lemma blockVals_eq_natCast (m : Gray) (i j : Nat) :
    blockVals m i j = (blockValsNat m i j).map (Nat.cast : Nat → ℚ) := by
  rw [blockVals, blockValsNat, List.map_flatten, List.map_map]
  simp [Function.comp_def, List.map_map]

lemma varQ_natCast (l : List Nat) (hne : l ≠ []) :
    varQ (l.map (Nat.cast : Nat → ℚ)) =
      (Nat.cast ((l.map (fun x => x * x)).sum) : ℚ) / (l.length : ℚ) -
        ((Nat.cast l.sum : ℚ) / (l.length : ℚ)) ^ 2 := by
  unfold varQ
  rw [if_neg (fun h => hne (List.map_eq_nil_iff.1 h))]
  have h1 : (l.map (Nat.cast : Nat → ℚ)).map (fun x => x ^ 2) =
      (l.map (fun x => x * x)).map (Nat.cast : Nat → ℚ) := by
    rw [List.map_map, List.map_map]
    congr 1
    funext x
    simp only [Function.comp_apply]
    push_cast
    ring
  have h2 : (Nat.cast ((l.map (fun x => x * x)).sum) : ℚ) =
      ((l.map (fun x => x * x)).map (Nat.cast : Nat → ℚ)).sum := Nat.cast_list_sum _
  have h3 : (Nat.cast l.sum : ℚ) = (l.map (Nat.cast : Nat → ℚ)).sum := Nat.cast_list_sum _
  rw [h1, ← h2, ← h3]
  simp

lemma varQ_block (m : Gray) (i j : Nat) :
    varQ (blockVals m i j) =
      (Nat.cast (((blockValsNat m i j).map (fun x => x * x)).sum) : ℚ) / 1024 -
        ((Nat.cast ((blockValsNat m i j).sum) : ℚ) / 1024) ^ 2 := by
  rw [blockVals_eq_natCast, varQ_natCast _ (fun h => by
    have h2 := congrArg List.length h
    rw [blockValsNat_length] at h2
    simp at h2), blockValsNat_length]
  norm_num

set_option maxRecDepth 100000 in
lemma sum_block00 : (blockValsNat (List.replicate 33 noiseRow) 0 0).sum = 0 := by decide

set_option maxRecDepth 100000 in
lemma sumsq_block00 :
    ((blockValsNat (List.replicate 33 noiseRow) 0 0).map (fun x => x * x)).sum = 0 := by decide

set_option maxRecDepth 100000 in
lemma sum_block032 : (blockValsNat (List.replicate 33 noiseRow) 0 32).sum = 13440 := by decide

set_option maxRecDepth 100000 in
lemma sumsq_block032 :
    ((blockValsNat (List.replicate 33 noiseRow) 0 32).map (fun x => x * x)).sum = 273600 := by
  decide

lemma varQ_block00 : varQ (blockVals (List.replicate 33 noiseRow) 0 0) = 0 := by
  rw [varQ_block, sum_block00, sumsq_block00]
  norm_num

lemma varQ_block032 : varQ (blockVals (List.replicate 33 noiseRow) 0 32) = 6075/64 := by
  rw [varQ_block, sum_block032, sumsq_block032]
  norm_num

lemma blockVariances_testBuf : blockVariances testBuf = [0, 6075/64] := by
  have hbs1 : blockStarts (height testBuf) = [0] := by decide
  have hbs2 : blockStarts (width testBuf) = [0, 32] := by decide
  rw [blockVariances, hbs1, hbs2, noiseMap_testBuf]
  simp only [List.map_cons, List.map_nil, List.flatten_cons, List.flatten_nil, List.append_nil]
  rw [varQ_block00, varQ_block032]

lemma specBlockVariances_testBuf : specBlockVariances testBuf = [0, 6075/64] := by
  have hbs1 : specBlockStarts (height testBuf) = [0] := by decide
  have hbs2 : specBlockStarts (width testBuf) = [0, 32] := by decide
  rw [specBlockVariances, hbs1, hbs2, noiseMap_testBuf]
  simp only [List.map_cons, List.map_nil, List.flatten_cons, List.flatten_nil, List.append_nil]
  rw [varQ_block00, varQ_block032]

lemma varQ_pair : varQ ([0, 6075/64] : List ℚ) = 36905625/16384 := by
  unfold varQ
  rw [if_neg (by simp)]
  norm_num

lemma noiseScore_testBuf : noiseScore testBuf = 6075/12800 := by
  rw [noiseScore, if_neg (by rw [blockVariances_testBuf]; simp), blockVariances_testBuf,
    varQ_pair]
  have hsq : (((36905625/16384 : ℚ) : ℝ)) = ((6075 : ℝ)/128) ^ 2 := by
    push_cast
    norm_num
  rw [hsq, Real.sqrt_sq (by norm_num)]
  rw [min_eq_left (by norm_num)]
  norm_num

lemma noiseScoreSpec_testBuf : noiseScoreSpec testBuf = 1 := by
  rw [noiseScoreSpec, specBlockVariances_testBuf, varQ_pair]
  rw [min_eq_right (by norm_num)]

end ManipDetector

open ApexVerify ManipDetector in
/-- Counterexample to C5.  On the concrete 33x65 buffer testBuf the block
variances are [0, 6075/64], whose variance is 36905625/16384 (about 2252.5):
the claimed formula min(variance_of_variances / 100, 1) yields 1, but the
code computes np.std — the square root 6075/128 — and returns 6075/12800
(about 0.475), so the claimed score differs from the actual score. -/
theorem c5_counterexample :
    noiseScoreSpec testBuf = 1 ∧
    noiseScore testBuf = 6075/12800 ∧
    noiseScore testBuf ≠ ((noiseScoreSpec testBuf : ℚ) : ℝ) := by
  refine ⟨noiseScoreSpec_testBuf, noiseScore_testBuf, ?_⟩
  rw [noiseScore_testBuf, noiseScoreSpec_testBuf]
  norm_num

open ApexVerify ManipDetector in
/-- C5 amended.  The analyzer blurs the grayscale buffer, subtracts the blur
to isolate noise, takes the 32x32 blocks at offsets 0, 32, ... strictly
below dimension - 32, computes each block's variance, and returns
min(std / 100, 1) where std is the square root of the variance across block
variances — equivalently score^2 * 10000 = min(variance_of_variances, 10000)
— not the variance itself divided by 100. -/
theorem c5_noise_score_sqrt (g : Gray) (hne : blockVariances g ≠ [])
    (hv : 0 ≤ varQ (blockVariances g)) :
    noiseScore g = min (Real.sqrt ((varQ (blockVariances g) : ℚ) : ℝ) / 100) 1 ∧
    (noiseScore g) ^ 2 * 10000 = min ((varQ (blockVariances g) : ℚ) : ℝ) 10000 := by
  have hdef : noiseScore g = min (Real.sqrt ((varQ (blockVariances g) : ℚ) : ℝ) / 100) 1 := by
    rw [noiseScore, if_neg hne]
  refine ⟨hdef, ?_⟩
  have hv' : (0 : ℝ) ≤ ((varQ (blockVariances g) : ℚ) : ℝ) := by exact_mod_cast hv
  have h100 : Real.sqrt 10000 = 100 := by
    rw [show (10000 : ℝ) = 100 ^ 2 by norm_num, Real.sqrt_sq (by norm_num)]
  rcases le_or_lt ((varQ (blockVariances g) : ℚ) : ℝ) 10000 with hle | hgt
  · have hs : Real.sqrt ((varQ (blockVariances g) : ℚ) : ℝ) ≤ 100 := by
      calc Real.sqrt ((varQ (blockVariances g) : ℚ) : ℝ) ≤ Real.sqrt 10000 :=
            Real.sqrt_le_sqrt hle
        _ = 100 := h100
    have hle1 : Real.sqrt ((varQ (blockVariances g) : ℚ) : ℝ) / 100 ≤ 1 := by
      rw [div_le_one (by norm_num : (0:ℝ) < 100)]
      exact hs
    rw [hdef, min_eq_left hle1, min_eq_left hle, div_pow, Real.sq_sqrt hv']
    ring
  · have hs : (100 : ℝ) < Real.sqrt ((varQ (blockVariances g) : ℚ) : ℝ) := by
      calc (100 : ℝ) = Real.sqrt 10000 := h100.symm
        _ < Real.sqrt ((varQ (blockVariances g) : ℚ) : ℝ) :=
            Real.sqrt_lt_sqrt (by norm_num) hgt
    have hge1 : (1 : ℝ) ≤ Real.sqrt ((varQ (blockVariances g) : ℚ) : ℝ) / 100 := by
      rw [le_div_iff (by norm_num : (0:ℝ) < 100)]
      linarith
    rw [hdef, min_eq_right hge1, min_eq_right (le_of_lt hgt)]
    norm_num

open ApexVerify ManipDetector in
/-- Witness for C5 at a concrete input: testBuf has nonempty block list and
non-negative variance of variances, and its noise score is the clamped
normalised square root. -/
theorem c5_noise_score_sqrt_witness :
    blockVariances testBuf ≠ [] ∧ 0 ≤ varQ (blockVariances testBuf) ∧
    noiseScore testBuf =
      min (Real.sqrt ((varQ (blockVariances testBuf) : ℚ) : ℝ) / 100) 1 := by
  have hne : blockVariances testBuf ≠ [] := by rw [blockVariances_testBuf]; simp
  have hv : 0 ≤ varQ (blockVariances testBuf) := by
    rw [blockVariances_testBuf, varQ_pair]; norm_num
  exact ⟨hne, hv, (c5_noise_score_sqrt testBuf hne hv).1⟩

namespace ManipDetector

open ApexVerify

lemma height_uniform (h w c : Nat) : height (uniformGray h w c) = h := by
  simp [height, uniformGray]

lemma width_uniform (h w c : Nat) (hh : 0 < h) : width (uniformGray h w c) = w := by
  cases h with
  | zero => exact absurd hh (lt_irrefl 0)
  | succ m => simp [width, uniformGray, List.replicate_succ]

/-- The sum over one axis of the uniform-image DFT vanishes at any nonzero
frequency: the N-th roots of unity sum to zero. -/
lemma sum_exp_zero (N u : Nat) (hu0 : 0 < u) (huN : u < N) :
    ∑ x ∈ Finset.range N,
      Complex.exp (-(2 * Real.pi * Complex.I) * ((u : ℂ) * (x : ℂ) / (N : ℂ))) = 0 := by
  have hNpos : 0 < N := lt_trans hu0 huN
  have hN : (N : ℂ) ≠ 0 := Nat.cast_ne_zero.2 (by omega)
  set ω : ℂ := Complex.exp (-(2 * Real.pi * Complex.I) * ((u : ℂ) / (N : ℂ))) with hω
  have hterm : ∀ x : Nat,
      Complex.exp (-(2 * Real.pi * Complex.I) * ((u : ℂ) * (x : ℂ) / (N : ℂ))) = ω ^ x := by
    intro x
    rw [hω, ← Complex.exp_nat_mul]
    congr 1
    ring
  have hω_ne : ω ≠ 1 := by
    rw [hω]
    intro hc
    rcases Complex.exp_eq_one_iff.1 hc with ⟨k, hk⟩
    have hk' : (-((u : ℂ) / (N : ℂ))) * (2 * Real.pi * Complex.I) =
        (k : ℂ) * (2 * Real.pi * Complex.I) := by
      rw [← hk]
      ring
    have hdiv : -((u : ℂ) / (N : ℂ)) = (k : ℂ) :=
      mul_right_cancel₀ Complex.two_pi_I_ne_zero hk'
    have hdivR : -((u : ℝ) / (N : ℝ)) = (k : ℝ) := by
      have : ((-((u : ℝ) / (N : ℝ)) : ℝ) : ℂ) = ((k : ℝ) : ℂ) := by
        push_cast
        exact hdiv
      exact_mod_cast this
    have hNR : (0 : ℝ) < (N : ℝ) := by exact_mod_cast hNpos
    have h1 : (0 : ℝ) < (u : ℝ) / (N : ℝ) :=
      div_pos (by exact_mod_cast hu0) hNR
    have h2 : (u : ℝ) / (N : ℝ) < 1 := (div_lt_one hNR).2 (by exact_mod_cast huN)
    have hk0 : (k : ℝ) < 0 := by linarith
    have hkm : (-1 : ℝ) < (k : ℝ) := by linarith
    have hk0' : k < 0 := by exact_mod_cast hk0
    have hkm' : (-1 : ℤ) < k := by exact_mod_cast hkm
    omega
  have hωN : ω ^ N = 1 := by
    rw [hω, ← Complex.exp_nat_mul]
    have harg : (N : ℂ) * (-(2 * Real.pi * Complex.I) * ((u : ℂ) / (N : ℂ))) =
        ((-(u : ℤ) : ℤ) : ℂ) * (2 * Real.pi * Complex.I) := by
      field_simp
      ring
    rw [harg, Complex.exp_int_mul_two_pi_mul_I]
  calc ∑ x ∈ Finset.range N,
        Complex.exp (-(2 * Real.pi * Complex.I) * ((u : ℂ) * (x : ℂ) / (N : ℂ)))
      = ∑ x ∈ Finset.range N, ω ^ x := Finset.sum_congr rfl (fun x _ => hterm x)
    _ = (ω ^ N - 1) / (ω - 1) := geom_sum_eq hω_ne N
    _ = 0 := by rw [hωN]; simp

/-- The DFT of a uniform image vanishes away from the zero frequency. -/
lemma dft2_uniform_eq_zero (h w c u v : Nat) (hu : u < h) (hv : v < w)
    (hne : ¬(u = 0 ∧ v = 0)) : dft2 (uniformGray h w c) u v = 0 := by
  have hh : 0 < h := lt_of_le_of_lt (Nat.zero_le u) hu
  have hw : 0 < w := lt_of_le_of_lt (Nat.zero_le v) hv
  unfold dft2
  rw [height_uniform, width_uniform h w c hh]
  have hE : ∀ x ∈ Finset.range h, ∀ y ∈ Finset.range w,
      (px (uniformGray h w c) x y : ℂ) *
        Complex.exp (-(2 * Real.pi * Complex.I) *
          ((u : ℂ) * (x : ℂ) / (h : ℂ) + (v : ℂ) * (y : ℂ) / (w : ℂ))) =
      (c : ℂ) * (Complex.exp (-(2 * Real.pi * Complex.I) * ((u : ℂ) * (x : ℂ) / (h : ℂ))) *
        Complex.exp (-(2 * Real.pi * Complex.I) * ((v : ℂ) * (y : ℂ) / (w : ℂ)))) := by
    intro x hx y hy
    rw [px_uniform, if_pos ⟨Finset.mem_range.1 hx, Finset.mem_range.1 hy⟩,
      ← Complex.exp_add]
    congr 2
    ring
  rw [Finset.sum_congr rfl (fun x hx => Finset.sum_congr rfl (fun y hy => hE x hx y hy))]
  have hinner : ∀ x : Nat,
      (∑ y ∈ Finset.range w,
        (c : ℂ) * (Complex.exp (-(2 * Real.pi * Complex.I) * ((u : ℂ) * (x : ℂ) / (h : ℂ))) *
          Complex.exp (-(2 * Real.pi * Complex.I) * ((v : ℂ) * (y : ℂ) / (w : ℂ))))) =
      ((c : ℂ) * Complex.exp (-(2 * Real.pi * Complex.I) * ((u : ℂ) * (x : ℂ) / (h : ℂ)))) *
        ∑ y ∈ Finset.range w,
          Complex.exp (-(2 * Real.pi * Complex.I) * ((v : ℂ) * (y : ℂ) / (w : ℂ))) := by
    intro x
    rw [Finset.mul_sum]
    exact Finset.sum_congr rfl (fun y _ => by ring)
  rw [Finset.sum_congr rfl (fun x _ => hinner x), ← Finset.sum_mul]
  rcases Nat.eq_zero_or_pos u with hu0 | hu0
  · have hv0 : 0 < v := by
      rcases Nat.eq_zero_or_pos v with h0 | h0
      · exact absurd ⟨hu0, h0⟩ hne
      · exact h0
    rw [sum_exp_zero w v hv0 hv, mul_zero]
  · have hsum : (∑ x ∈ Finset.range h,
        (c : ℂ) * Complex.exp (-(2 * Real.pi * Complex.I) * ((u : ℂ) * (x : ℂ) / (h : ℂ)))) =
        (c : ℂ) * ∑ x ∈ Finset.range h,
          Complex.exp (-(2 * Real.pi * Complex.I) * ((u : ℂ) * (x : ℂ) / (h : ℂ))) :=
      (Finset.mul_sum _ _ _).symm
    rw [hsum, sum_exp_zero h u hu0 hu, mul_zero, zero_mul]

end ManipDetector

namespace ManipDetector

open ApexVerify

/-- The fftshift index hits the zero frequency exactly at the centre. -/
lemma shiftIdx_eq_zero_iff (n i : Nat) (hn : 0 < n) (hi : i < n) :
    shiftIdx n i = 0 ↔ i = n / 2 := by
  unfold shiftIdx
  constructor
  · intro hz
    have hd2 : n / 2 < n := Nat.div_lt_self hn (by norm_num)
    rcases Nat.dvd_of_mod_eq_zero hz with ⟨k, hk⟩
    match k, hk with
    | 0, hk => omega
    | 1, hk => omega
    | (k + 2), hk =>
      have : n * (k + 2) = n * k + n * 2 := by ring
      omega
  · intro hz
    subst hz
    have : n / 2 + n - n / 2 = n := by omega
    rw [this, Nat.mod_self]

lemma shiftIdx_lt (n i : Nat) (hn : 0 < n) : shiftIdx n i < n := Nat.mod_lt _ hn

/-- Away from the centre pixel, the shifted magnitude spectrum of a uniform
image is zero. -/
lemma magShift_uniform (h w c i j : Nat) (hh : 0 < h) (hw : 0 < w)
    (hi : i < h) (hj : j < w) (hne : ¬(i = h / 2 ∧ j = w / 2)) :
    magShift (uniformGray h w c) i j = 0 := by
  unfold magShift
  rw [height_uniform, width_uniform h w c hh]
  rw [dft2_uniform_eq_zero h w c _ _ (shiftIdx_lt h i hh) (shiftIdx_lt w j hw) (by
    intro hz
    exact hne ⟨(shiftIdx_eq_zero_iff h i hh hi).1 hz.1,
      (shiftIdx_eq_zero_iff w j hw hj).1 hz.2⟩)]
  simp

/-- The centre pixel lies inside the low-frequency disk, so the mask is 0
there. -/
lemma maskVal_center (h w : Nat) : maskVal h w (h / 2) (w / 2) = 0 := by
  rw [maskVal, if_pos]
  simp

/-- The high-frequency energy of a uniform image vanishes: all spectral mass
sits at the centre, which the mask removes. -/
lemma highFreqEnergy_uniform (h w c : Nat) (hh : 0 < h) (hw : 0 < w) :
    highFreqEnergy (uniformGray h w c) = 0 := by
  unfold highFreqEnergy
  rw [height_uniform, width_uniform h w c hh]
  apply Finset.sum_eq_zero
  intro i hi
  apply Finset.sum_eq_zero
  intro j hj
  by_cases hc : i = h / 2 ∧ j = w / 2
  · rcases hc with ⟨rfl, rfl⟩
    rw [maskVal_center, mul_zero]
  · rw [magShift_uniform h w c i j hh hw (Finset.mem_range.1 hi) (Finset.mem_range.1 hj) hc,
      zero_mul]

/-- The high-frequency ratio of a uniform image is 0 in both branches. -/
lemma highFreqFrac_uniform (h w c : Nat) (hh : 0 < h) (hw : 0 < w) :
    highFreqFrac (uniformGray h w c) = 0 := by
  unfold highFreqFrac
  rw [highFreqEnergy_uniform h w c hh hw]
  split_ifs <;> simp

/-- The frequency score of a uniform image is exactly 1. -/
lemma freqScore_uniform (h w c : Nat) (hh : 0 < h) (hw : 0 < w) :
    freqScore (uniformGray h w c) = 1 := by
  unfold freqScore
  rw [highFreqFrac_uniform h w c hh hw, zero_sub, abs_neg,
    abs_of_nonneg (by norm_num : (0:ℝ) ≤ 1/2)]
  norm_num

end ManipDetector

namespace ManipDetector

open ApexVerify

/-- The reflected index stays inside the axis for the 5-tap window. -/
lemma reflect101_lt (n : Nat) (i : Int) (hn : 3 ≤ n) (hlow : -2 ≤ i) (hup : i < (n : Int) + 2) :
    reflect101 n i < n := by
  unfold reflect101
  split_ifs with h1 h2
  · omega
  · omega
  · omega

/-- Reading a grid built from index functions. -/
lemma px_grid (f : Nat → Nat → Nat) (h w i j : Nat) :
    px ((List.range h).map (fun a => (List.range w).map (fun b => f a b))) i j =
      if i < h ∧ j < w then f i j else 0 := by
  unfold px
  by_cases hi : i < h
  · rw [List.get?_map, List.get?_range hi]
    simp only [Option.map_some', Option.some_bind]
    by_cases hj : j < w
    · rw [List.get?_map, List.get?_range hj]
      rw [if_pos ⟨hi, hj⟩]
      rfl
    · rw [List.get?_map, List.get?_eq_none.2 (by simpa using Nat.le_of_not_lt hj)]
      rw [if_neg (fun hh => hj hh.2)]
      rfl
  · rw [List.get?_eq_none.2 (by simpa using Nat.le_of_not_lt hi)]
    rw [if_neg (fun hh => hi hh.1)]
    rfl

/-- Blurring a uniform image reproduces the color at interior coordinates. -/
lemma blurPx_uniform (h w c i j : Nat) (hh : 3 ≤ h) (hw : 3 ≤ w) (hi : i < h) (hj : j < w) :
    blurPx (uniformGray h w c) i j = c := by
  unfold blurPx
  rw [height_uniform, width_uniform h w c (by omega)]
  have key : ∀ di ∈ List.range 5, ∀ dj ∈ List.range 5,
      gw di * gw dj *
        px (uniformGray h w c) (reflect101 h ((i : Int) + di - 2))
          (reflect101 w ((j : Int) + dj - 2)) = gw di * gw dj * c := by
    intro di hdi dj hdj
    have hdi5 : di < 5 := List.mem_range.1 hdi
    have hdj5 : dj < 5 := List.mem_range.1 hdj
    rw [px_uniform, if_pos]
    constructor
    · exact reflect101_lt h _ hh (by omega) (by push_cast; omega)
    · exact reflect101_lt w _ hw (by omega) (by push_cast; omega)
  have houter : (List.range 5).map (fun di =>
      ((List.range 5).map (fun dj =>
        gw di * gw dj *
          px (uniformGray h w c) (reflect101 h ((i : Int) + di - 2))
            (reflect101 w ((j : Int) + dj - 2)))).sum) =
      (List.range 5).map (fun di => ((List.range 5).map (fun dj => gw di * gw dj * c)).sum) := by
    apply List.map_congr_left
    intro di hdi
    congr 1
    apply List.map_congr_left
    intro dj hdj
    exact key di hdi dj hdj
  rw [houter]
  have hrange : List.range 5 = [0, 1, 2, 3, 4] := rfl
  rw [hrange]
  simp only [List.map_cons, List.map_nil, List.sum_cons, List.sum_nil]
  have g0 : gw 0 = 1 := rfl
  have g1 : gw 1 = 4 := rfl
  have g2 : gw 2 = 6 := rfl
  have g3 : gw 3 = 4 := rfl
  have g4 : gw 4 = 1 := rfl
  rw [g0, g1, g2, g3, g4]
  omega

/-- The noise map of a uniform image is identically zero. -/
lemma noise_px_uniform (h w c : Nat) (hh : 3 ≤ h) (hw : 3 ≤ w) (i j : Nat) :
    px (noiseMap (uniformGray h w c)) i j = 0 := by
  unfold noiseMap
  rw [height_uniform, width_uniform h w c (by omega), px_grid]
  split_ifs with hij
  · rw [px_uniform, if_pos ⟨hij.1, hij.2⟩, blurPx_uniform h w c i j hh hw hij.1 hij.2]
    simp [natAbsDiff]
  · rfl

/-- The variance of an all-zero list is zero. -/
lemma varQ_of_all_zero {l : List ℚ} (hz : ∀ x ∈ l, x = 0) : varQ l = 0 := by
  unfold varQ
  split_ifs with he
  · rfl
  · have hs : l.sum = 0 := List.sum_eq_zero hz
    have hs2 : (l.map (fun x => x ^ 2)).sum = 0 := by
      apply List.sum_eq_zero
      intro y hy
      rcases List.mem_map.1 hy with ⟨x, hx, rfl⟩
      rw [hz x hx]
      norm_num
    rw [hs, hs2]
    simp

/-- Every block variance of a uniform image is zero. -/
lemma blockVariances_uniform (h w c : Nat) (hh : 3 ≤ h) (hw : 3 ≤ w) :
    ∀ x ∈ blockVariances (uniformGray h w c), x = 0 := by
  intro x hx
  unfold blockVariances at hx
  rcases List.mem_flatten.1 hx with ⟨row, hrow, hxrow⟩
  rcases List.mem_map.1 hrow with ⟨i, _, rfl⟩
  rcases List.mem_map.1 hxrow with ⟨j, _, rfl⟩
  apply varQ_of_all_zero
  intro y hy
  unfold blockVals at hy
  rcases List.mem_flatten.1 hy with ⟨row2, hrow2, hyrow2⟩
  rcases List.mem_map.1 hrow2 with ⟨di, _, rfl⟩
  rcases List.mem_map.1 hyrow2 with ⟨dj, _, rfl⟩
  rw [noise_px_uniform h w c hh hw]
  norm_num

/-- The noise score of a uniform image is zero. -/
lemma noiseScore_uniform (h w c : Nat) (hh : 3 ≤ h) (hw : 3 ≤ w) :
    noiseScore (uniformGray h w c) = 0 := by
  unfold noiseScore
  split_ifs with he
  · rfl
  · rw [varQ_of_all_zero (blockVariances_uniform h w c hh hw)]
    rw [min_eq_left (by norm_num)]
    simp

end ManipDetector

open ApexVerify ManipDetector in
/-- Counterexample to C6.  On the uniform 128x128 black image the
high-frequency ratio is 0, and the absolute-deviation formulation
min(2*|ratio - 0.5|, 1) maps it to the maximal score 1.0, not approximately
0: far from avoiding a high score, the formula produces the highest
possible one. -/
theorem c6_counterexample :
    freqScore (uniformGray 128 128 0) = 1 ∧
    ¬ freqScore (uniformGray 128 128 0) < 1/2 := by
  have h1 : freqScore (uniformGray 128 128 0) = 1 :=
    freqScore_uniform 128 128 0 (by norm_num) (by norm_num)
  exact ⟨h1, by rw [h1]; norm_num⟩

open ApexVerify ManipDetector in
/-- C6 amended.  For every uniform solid-color image of size at least
128x128 the frequency-domain score is exactly 1 (the high-frequency ratio is
0 and the absolute-deviation formulation yields the maximal score), the
noise score is 0, and the raw fusion score 0.4*ela + 0.3*1 + 0.3*0 is at
most 0.70 for any ELA score in [0, 1], so the strict > 0.70 decision still
classifies the image as authentic. -/
theorem c6_uniform_image (h w c : Nat) (hh : 128 ≤ h) (hw : 128 ≤ w) :
    freqScore (uniformGray h w c) = 1 ∧
    noiseScore (uniformGray h w c) = 0 ∧
    (∀ e : ℚ, 0 ≤ e → e ≤ 1 →
      manipConfidence e 1 0 ≤ 7/10 ∧ manipIsManipulated e 1 0 = false) := by
  refine ⟨freqScore_uniform h w c (by omega) (by omega),
    noiseScore_uniform h w c (by omega) (by omega), fun e he0 he1 => ?_⟩
  have hc : manipConfidence e 1 0 ≤ 7/10 := by
    rw [manipConfidence]
    linarith
  refine ⟨hc, ?_⟩
  simp only [manipIsManipulated, decide_eq_false_iff_not, not_lt]
  exact hc

open ApexVerify ManipDetector in
/-- Witness for C6 at a concrete input: the uniform 128x128 image of color 5
has frequency score 1, noise score 0, and is classified authentic when fused
with the ELA score 1/2. -/
theorem c6_uniform_image_witness :
    freqScore (uniformGray 128 128 5) = 1 ∧
    noiseScore (uniformGray 128 128 5) = 0 ∧
    manipIsManipulated (1/2) 1 0 = false := by
  have h := c6_uniform_image 128 128 5 (by norm_num) (by norm_num)
  exact ⟨h.1, h.2.1, (h.2.2 (1/2) (by norm_num) (by norm_num)).2⟩
